import Mathlib

/-!
Verification development for the MemoryMesh knowledge-graph engine.

Shallow embedding of the repository's JavaScript/TypeScript sources:
JavaScript strings are modelled as `List Char`, fallible JavaScript code
(code that may throw) runs in `Except JsErr`, absent (`undefined`) values
are `Option`, and JavaScript objects become Lean structures.  Each
definition is translated from the corresponding source function; where a
collaborator of the code under examination is not part of the sources
(the response formatter, the schema compiler, the registry loader), the
definition is modelled from the specification and marked as such in its
doc comment.
-/

/-- JavaScript strings, modelled as lists of characters. -/
abbrev JsStr := List Char

/-- JavaScript error values, reduced to their message string. -/
abbrev JsErr := JsStr

/-- Embed a Lean string literal as a `JsStr`. -/
def str (s : String) : JsStr := s.data

/-- The whitespace test used by JavaScript `trim` (ASCII portion). -/
def isWS (c : Char) : Bool :=
  c = ' ' || c = '\t' || c = '\n' || c = '\r' || c = '\x0b' || c = '\x0c'

/-- JavaScript `String.prototype.trim`: drop whitespace at both ends. -/
def trimStr (l : JsStr) : JsStr :=
  ((l.dropWhile isWS).reverse.dropWhile isWS).reverse

/-- JavaScript `String.prototype.toLowerCase` (ASCII portion). -/
def toLowerStr (l : JsStr) : JsStr := l.map Char.toLower

/-- JavaScript `String.prototype.includes`: substring containment. -/
def includesStr (hay sub : JsStr) : Bool := decide (sub <:+: hay)

/-- JavaScript `String.prototype.split` with a single-character separator. -/
def splitOnChar (sep : Char) : JsStr → List JsStr
  | [] => [[]]
  | c :: rest =>
    match splitOnChar sep rest with
    | [] => [[]]
    | h :: t => if c = sep then [] :: h :: t else (c :: h) :: t

/-- JavaScript `Array.prototype.join` with a string separator. -/
def joinWith (sep : JsStr) : List JsStr → JsStr
  | [] => []
  | [x] => x
  | x :: xs => x ++ sep ++ joinWith sep xs

/-- Render a natural number the way a JavaScript template literal renders
an integer. -/
def natToStr (n : Nat) : JsStr := (Nat.repr n).data

/-- A graph node record: `{name, nodeType, metadata}`
(`src/src/queryGraph.js`, data model of the memory file). -/
structure Node where
  name : JsStr
  nodeType : JsStr
  metadata : List JsStr
deriving DecidableEq, Repr

/-- A graph edge record: `{from, to, edgeType}` (`from` and `to` are Lean
keywords, hence the underscores). -/
structure Edge where
  from_ : JsStr
  to_ : JsStr
  edgeType : JsStr
deriving DecidableEq, Repr

/-- One line of the memory file, tagged `type:"node"` or `type:"edge"`. -/
inductive GraphItem where
  | node (n : Node)
  | edge (e : Edge)
deriving DecidableEq, Repr

/-- `graph.filter(item => item.type === 'node')` -/
def nodesOf (graph : List GraphItem) : List Node :=
  graph.filterMap (fun i => match i with | .node n => some n | .edge _ => none)

/-- The special-query part of `findNodes` (`src/src/queryGraph.js`,
lines 43-63): on a query containing `:`, split at `:`, trim and lowercase
the parts; field `type`/`nodetype` filters on lowercased `nodeType`
(guarded by JavaScript truthiness of `node.nodeType`), field `tag` collects
the `from` endpoints of matching `tagged_with` edges.  Returns `none` when
the inner `if`s fall through to the general search. -/
def findNodesSpecial (graph : List GraphItem) (nodes : List Node)
    (query : JsStr) : Option (List Node) :=
  if ':' ∈ query then
    let parts := (splitOnChar ':' query).map (fun p => toLowerStr (trimStr p))
    let field := parts.getD 0 []
    let value := parts.getD 1 []
    if field = str "type" ∨ field = str "nodetype" then
      some (nodes.filter (fun n =>
        decide (n.nodeType ≠ [] ∧ toLowerStr n.nodeType = value)))
    else if field = str "tag" then
      let edges := graph.filterMap (fun i =>
        match i with
        | .edge e =>
          if e.edgeType = str "tagged_with" ∧ toLowerStr e.to_ = value
          then some e else none
        | .node _ => none)
      let nodeNames := edges.map (fun e => e.from_)
      some (nodes.filter (fun n => nodeNames.contains n.name))
    else none
  else none

/-- The general-search part of `findNodes` (lines 65-81): case-insensitive
substring match on the node name (guarded by truthiness of `node.name`)
or on any metadata entry. -/
def generalSearch (nodes : List Node) (query : JsStr) : List Node :=
  let queryLower := toLowerStr query
  nodes.filter (fun n =>
    if n.name ≠ [] ∧ includesStr (toLowerStr n.name) queryLower then true
    else n.metadata.any (fun m => includesStr (toLowerStr m) queryLower))

/-- `findNodes(graph, query)` from `src/src/queryGraph.js`: all nodes on a
falsy (empty) query, then the special `type:`/`nodetype:`/`tag:` handling,
then the general substring search. -/
def findNodes (graph : List GraphItem) (query : JsStr) : List Node :=
  let nodes := nodesOf graph
  if query = [] then nodes
  else
    match findNodesSpecial graph nodes query with
    | some result => result
    | none => generalSearch nodes query

/-- Fixture: an NPC node whose `nodeType` is upper-case. -/
def nodeX : Node := ⟨str "X", str "NPC", [str "Status: Alive"]⟩

/-- Fixture: an NPC node with lower-case `nodeType`. -/
def nodeY : Node := ⟨str "Y", str "npc", []⟩

/-- Fixture: a tag node. -/
def nodeCool : Node := ⟨str "CoolTag", str "tag", []⟩

/-- Fixture: a `tagged_with` edge from `nodeX` to `nodeCool`. -/
def edgeXT : Edge := ⟨str "X", str "CoolTag", str "tagged_with"⟩

/-- Fixture: a small memory graph. -/
def gFix : List GraphItem := [.node nodeX, .node nodeY, .node nodeCool, .edge edgeXT]

/-- Arguments object of a tool-call request.  Each field a built-in branch of
`handleCallToolRequest` reads is an `Option` (absent = JavaScript
`undefined`); payload contents are opaque strings. -/
structure ReqArgs where
  nodes : Option (List JsStr)
  edges : Option (List JsStr)
  metadata : Option (List JsStr)
  deletions : Option (List JsStr)
  nodeNames : Option (List JsStr)
  names : Option (List JsStr)
  query : Option JsStr
deriving DecidableEq, Repr

/-- An incoming tool-call request `request.params = {name, arguments}`
(`src/src/tools/callToolHandler.js`, line 14). -/
structure Request where
  name : JsStr
  arguments : Option ReqArgs
deriving DecidableEq, Repr

/-- Modelled from the spec: the error envelope produced by
`formatToolError` (`responseFormatter.js` is not among the sources) —
`{isError: true, operation, error, context?, suggestions?, recoverySteps?}`
per spec section 6. -/
structure ErrorEnvelope where
  operation : JsStr
  error : JsStr
  context : Option ReqArgs
  suggestions : List JsStr
  recoverySteps : List JsStr
deriving DecidableEq, Repr

/-- The `data` field of a success response: either a wrapper object with a
single key (for example `{nodes: result}`) or the raw result. -/
inductive RespData where
  | wrapped (key : JsStr) (v : JsStr)
  | plain (v : JsStr)
deriving DecidableEq, Repr

/-- Modelled from the spec: a tool-call response is either a success
response `{data?, message, actionTaken}` built by `formatToolResponse` or
an error envelope built by `formatToolError` (spec section 6). -/
inductive CallResult where
  | success (data : Option RespData) (message : JsStr) (actionTaken : JsStr)
  | failure (e : ErrorEnvelope)
deriving DecidableEq, Repr

/-- The knowledge-graph manager seen by the dispatcher: one method per
built-in tool, each an arbitrary function that may throw
(`Except.error`).  Results are opaque strings. -/
structure GraphManager where
  addNodes : Option (List JsStr) → Except JsErr JsStr
  updateNodes : Option (List JsStr) → Except JsErr JsStr
  addEdges : Option (List JsStr) → Except JsErr JsStr
  updateEdges : Option (List JsStr) → Except JsErr JsStr
  addMetadata : Option (List JsStr) → Except JsErr JsStr
  deleteNodes : Option (List JsStr) → Except JsErr JsStr
  deleteMetadata : Option (List JsStr) → Except JsErr JsStr
  deleteEdges : Option (List JsStr) → Except JsErr JsStr
  readGraph : Unit → Except JsErr JsStr
  searchNodes : Option JsStr → Except JsErr JsStr
  openNodes : Option (List JsStr) → Except JsErr JsStr

/-- The response of `dynamicTools.handleToolCall` as inspected by the
dispatcher (line 109): either a value carrying `toolResult.isError` (an
error envelope) or a plain tool result. -/
inductive DynResponse where
  | errorWrapped (e : ErrorEnvelope)
  | value (v : JsStr)
deriving DecidableEq, Repr

/-- The behaviour of `dynamicTools.handleToolCall` (defined in
`tools.js`, outside the sources), as an arbitrary function that may
throw. -/
abbrev DynHandler := JsStr → ReqArgs → GraphManager → Except JsErr DynResponse

/-- JavaScript property access `x.length` on a possibly-undefined array:
throws a `TypeError` when the array is `undefined`. -/
def jsLen {α : Type} (o : Option (List α)) : Except JsErr Nat :=
  match o with
  | some l => .ok l.length
  | none => .error (str "Cannot read properties of undefined (reading 'length')")

/-- JavaScript `x.join(', ')` on a possibly-undefined array of strings:
throws a `TypeError` when the array is `undefined`. -/
def jsJoin (o : Option (List JsStr)) : Except JsErr JsStr :=
  match o with
  | some l => .ok (joinWith (str ", ") l)
  | none => .error (str "Cannot read properties of undefined (reading 'join')")

/-- A possibly-undefined string in a JavaScript template literal renders as
the text `undefined` rather than throwing. -/
def jsShowOpt (o : Option JsStr) : JsStr :=
  match o with
  | some s => s
  | none => str "undefined"

/-- The regular-expression test `name.match(/^(add|update|delete)_/)` of
`callToolHandler.js`, line 106. -/
def matchesDynPattern (name : JsStr) : Bool :=
  decide (str "add_" <+: name) || decide (str "update_" <+: name) ||
    decide (str "delete_" <+: name)

/-- The eleven built-in tool names of the dispatcher's `switch` statement
(`callToolHandler.js`, lines 26-102). -/
def builtinToolNames : List JsStr :=
  [str "add_nodes", str "update_nodes", str "add_edges", str "update_edges",
   str "add_metadata", str "delete_nodes", str "delete_metadata",
   str "delete_edges", str "read_graph", str "search_nodes", str "open_nodes"]

/-- The `try` block of `handleCallToolRequest` (lines 24-125): the `switch`
over built-in names, then the dynamic-tool pattern test, then the
unknown-tool error.  Runs in `Except` so that a throwing manager method
propagates to the surrounding `catch`. -/
def dispatchTry (name : JsStr) (args : ReqArgs) (mgr : GraphManager)
    (dyn : DynHandler) : Except JsErr CallResult :=
  if name = str "add_nodes" then do
    let v ← mgr.addNodes args.nodes
    let len ← jsLen args.nodes
    pure (.success (some (.wrapped (str "nodes") v))
      (str "Successfully added " ++ natToStr len ++ str " nodes")
      (str "Added nodes to the knowledge graph"))
  else if name = str "update_nodes" then do
    let v ← mgr.updateNodes args.nodes
    let len ← jsLen args.nodes
    pure (.success (some (.wrapped (str "nodes") v))
      (str "Successfully updated " ++ natToStr len ++ str " nodes")
      (str "Updated nodes in the knowledge graph"))
  else if name = str "add_edges" then do
    let v ← mgr.addEdges args.edges
    let len ← jsLen args.edges
    pure (.success (some (.wrapped (str "edges") v))
      (str "Successfully added " ++ natToStr len ++ str " edges")
      (str "Added edges to the knowledge graph"))
  else if name = str "update_edges" then do
    let v ← mgr.updateEdges args.edges
    let len ← jsLen args.edges
    pure (.success (some (.wrapped (str "edges") v))
      (str "Successfully updated " ++ natToStr len ++ str " edges")
      (str "Updated edges in the knowledge graph"))
  else if name = str "add_metadata" then do
    let v ← mgr.addMetadata args.metadata
    pure (.success (some (.wrapped (str "metadata") v))
      (str "Successfully added metadata")
      (str "Added metadata to nodes in the knowledge graph"))
  else if name = str "delete_nodes" then do
    let _ ← mgr.deleteNodes args.nodeNames
    let j ← jsJoin args.nodeNames
    pure (.success none
      (str "Successfully deleted nodes: " ++ j)
      (str "Deleted nodes from the knowledge graph"))
  else if name = str "delete_metadata" then do
    let _ ← mgr.deleteMetadata args.deletions
    pure (.success none
      (str "Successfully deleted metadata")
      (str "Deleted metadata from nodes in the knowledge graph"))
  else if name = str "delete_edges" then do
    let _ ← mgr.deleteEdges args.edges
    pure (.success none
      (str "Successfully deleted edges")
      (str "Deleted edges from the knowledge graph"))
  else if name = str "read_graph" then do
    let v ← mgr.readGraph ()
    pure (.success (some (.plain v))
      (str "Successfully read the knowledge graph")
      (str "Read the knowledge graph"))
  else if name = str "search_nodes" then do
    let v ← mgr.searchNodes args.query
    pure (.success (some (.plain v))
      (str "Successfully searched nodes with query: " ++ jsShowOpt args.query)
      (str "Searched nodes in the knowledge graph"))
  else if name = str "open_nodes" then do
    let v ← mgr.openNodes args.names
    let j ← jsJoin args.names
    pure (.success (some (.plain v))
      (str "Successfully opened nodes: " ++ j)
      (str "Opened nodes in the knowledge graph"))
  else if matchesDynPattern name then do
    let tr ← dyn name args mgr
    match tr with
    | .errorWrapped e => pure (.failure e)
    | .value v =>
      pure (.success (some (.plain v))
        (str "Successfully executed tool: " ++ name)
        (str "Executed tool: " ++ name))
  else
    pure (.failure ⟨name, str "Unknown tool: " ++ name, none,
      [str "Check the list of available tools"], []⟩)

/-- `handleCallToolRequest` (`src/src/tools/callToolHandler.js`): the
missing-arguments early return, then the `try` block, with the `catch`
converting any thrown error into an error envelope. -/
def handleCallToolRequest (req : Request) (mgr : GraphManager)
    (dyn : DynHandler) : CallResult :=
  match req.arguments with
  | none => .failure ⟨req.name, str "No arguments provided", none,
      [str "Provide arguments for the tool call"], []⟩
  | some args =>
    match dispatchTry req.name args mgr dyn with
    | .ok r => r
    | .error e => .failure ⟨req.name, e, some args,
        [str "Review the error message and the provided arguments"],
        [str "If the error persists, notify the human"]⟩


/-- Fixture: a manager whose methods all succeed. -/
def mgrOk : GraphManager :=
  ⟨fun _ => .ok (str "r1"), fun _ => .ok (str "r2"), fun _ => .ok (str "r3"),
   fun _ => .ok (str "r4"), fun _ => .ok (str "r5"), fun _ => .ok (str "r6"),
   fun _ => .ok (str "r7"), fun _ => .ok (str "r8"), fun _ => .ok (str "r9"),
   fun _ => .ok (str "r10"), fun _ => .ok (str "r11")⟩

/-- Fixture: a manager whose methods all throw. -/
def mgrThrow : GraphManager :=
  ⟨fun _ => .error (str "boom"), fun _ => .error (str "boom"),
   fun _ => .error (str "boom"), fun _ => .error (str "boom"),
   fun _ => .error (str "boom"), fun _ => .error (str "boom"),
   fun _ => .error (str "boom"), fun _ => .error (str "boom"),
   fun _ => .error (str "boom"), fun _ => .error (str "boom"),
   fun _ => .error (str "boom")⟩

/-- Fixture: a dynamic handler returning a plain value. -/
def dynOk : DynHandler := fun _ _ _ => .ok (.value (str "dv"))

/-- Fixture: a fully populated arguments object. -/
def argsFix : ReqArgs :=
  ⟨some [str "n1"], some [str "e1"], some [str "m1"], some [str "d1"],
   some [str "nn1"], some [str "o1"], some (str "q")⟩


/-- A dynamic tool descriptor; `isDynamicTool` only inspects `name`. -/
structure DynTool where
  name : JsStr
deriving DecidableEq, Repr

/-- The compiled-schema registry behind `DynamicToolManager`
(`IDynamicSchemaToolRegistry`, outside the sources): a tool list and a
call handler that may throw. -/
structure DynRegistry where
  tools : List DynTool
  handleCall : JsStr → ReqArgs → GraphManager → Except JsErr DynResponse

/-- The mutable state of `DynamicToolManager`
(`src/src/tools/registry/dynamicTools.ts`): `registry` starts as `null`,
`initialized` as `false`. -/
structure DTMState where
  registry : Option DynRegistry
  initialized : Bool

/-- `DynamicToolManager.initialize` (lines 32-44): a no-op when already
initialized; otherwise runs the loader (`initializeDynamicTools`, outside
the sources, passed here as its result) and either records the registry
and sets the flag, or rethrows as an initialization failure leaving the
state unchanged. -/
def dtmInitialize (s : DTMState) (loadResult : Except JsErr DynRegistry) :
    DTMState × Except JsErr Unit :=
  if s.initialized then (s, .ok ())
  else
    match loadResult with
    | .ok r => (⟨some r, true⟩, .ok ())
    | .error _ => (s, .error (str "Dynamic tools initialization failed"))

/-- `DynamicToolManager.getTools` (lines 49-54): throws when the manager
is not initialized or the registry is `null`. -/
def dtmGetTools (s : DTMState) : Except JsErr (List DynTool) :=
  match s.initialized, s.registry with
  | true, some r => .ok r.tools
  | _, _ => .error (str "Dynamic tools not initialized")

/-- The two outcomes of `DynamicToolManager.handleToolCall`: the registry's
own response passed through, or an error envelope built locally. -/
inductive DTMCallOutcome where
  | fromRegistry (r : DynResponse)
  | envelope (e : ErrorEnvelope)

/-- `DynamicToolManager.handleToolCall` (lines 59-86): an error envelope
when uninitialized, otherwise the registry call with a catch-all that
wraps thrown errors. -/
def dtmHandleToolCall (s : DTMState) (toolName : JsStr) (args : ReqArgs)
    (mgr : GraphManager) : DTMCallOutcome :=
  match s.initialized, s.registry with
  | true, some r =>
    match r.handleCall toolName args mgr with
    | .ok resp => .fromRegistry resp
    | .error e => .envelope ⟨toolName, e, some args,
        [str "Verify the tool name is correct",
         str "Check the provided arguments match the tool schema",
         str "Ensure all required parameters are provided"], []⟩
  | _, _ => .envelope ⟨toolName, str "Dynamic tools not initialized", none,
      [str "Ensure dynamic tools are initialized before making tool calls"], []⟩

/-- `DynamicToolManager.isDynamicTool` (lines 91-96): `false` when
uninitialized, otherwise whether some registered tool carries the name
(via `getTools`, which may in general throw, hence the `Except`). -/
def dtmIsDynamicTool (s : DTMState) (toolName : JsStr) : Except JsErr Bool :=
  match s.initialized, s.registry with
  | true, some _ =>
    (dtmGetTools s).map (fun ts => ts.any (fun t => t.name = toolName))
  | _, _ => .ok false

/-- Fixture: a registry with one tool. -/
def regFix : DynRegistry :=
  ⟨[⟨str "add_npc"⟩], fun _ _ _ => .ok (.value (str "v"))⟩

/-- Fixture: an uninitialized manager state that nevertheless carries a
registry value. -/
def dtmUninit : DTMState := ⟨some regFix, false⟩


/-- One property of a schema document: its declared type shape, required
flag and optional relationship annotation (`edgeType`). -/
structure SchemaProp where
  propName : JsStr
  required : Bool
  isArray : Bool
  relationship : Option JsStr
deriving DecidableEq, Repr

/-- A schema document: tool name plus ordered property list. -/
structure ToolSchema where
  toolName : JsStr
  props : List SchemaProp
deriving DecidableEq, Repr

/-- The npc schema document (`src/unnamed/part_000`): seventeen properties
in declaration order; `currentLocation` and `origin` carry relationship
annotations. -/
def npcSchema : ToolSchema :=
  ⟨str "add_npc",
   [⟨str "name", true, false, none⟩,
    ⟨str "role", true, false, none⟩,
    ⟨str "status", true, false, none⟩,
    ⟨str "currentLocation", true, false, some (str "located_in")⟩,
    ⟨str "description", true, false, none⟩,
    ⟨str "gender", false, false, none⟩,
    ⟨str "race", false, false, none⟩,
    ⟨str "background", false, false, none⟩,
    ⟨str "secret", false, false, none⟩,
    ⟨str "origin", false, false, some (str "originates_from")⟩,
    ⟨str "traits", false, true, none⟩,
    ⟨str "abilities", false, true, none⟩,
    ⟨str "importance", false, false, none⟩,
    ⟨str "reputation", false, false, none⟩,
    ⟨str "money", false, false, none⟩,
    ⟨str "alignment", false, false, none⟩,
    ⟨str "motivation", false, false, none⟩]⟩

/-- An argument value passed to a compiled tool: a string or an array of
strings. -/
inductive DynVal where
  | s (v : JsStr)
  | arr (vs : List JsStr)
deriving DecidableEq, Repr

/-- Render an argument value into metadata text: arrays join with
a comma and a space (spec section 4.1). -/
def renderDynVal : DynVal → JsStr
  | .s v => v
  | .arr vs => joinWith (str ", ") vs

/-- Capitalize the first character of a field name (spec section 4.1,
`"<CapitalizedField>: <value>"`). -/
def capitalizeStr : JsStr → JsStr
  | [] => []
  | c :: rest => c.toUpper :: rest

/-- Look up a named argument in a compiled-tool argument object. -/
def lookupArg (args : List (JsStr × DynVal)) (k : JsStr) : Option DynVal :=
  (args.find? (fun p => p.1 = k)).map (fun p => p.2)

/-- Modelled from the spec: the compiled `add_<type>` handler produced by
the Tool Compiler (`DynamicSchemaToolRegistry`/`SchemaBuilder` are not
among the sources).  Per spec section 4.1 it validates that every required
field is present and that each supplied field has the declared shape,
failing with a `ValidationError` naming the offending field; on success it
builds one node whose `nodeType` is the tool name stripped of `add_`,
whose metadata lines are the supplied non-relationship properties (other
than `name`) rendered in schema order as `"<CapitalizedField>: <value>"`,
plus one outgoing edge per scalar value of each supplied relationship
property (arrays fan out). -/
def compiledAddHandler (sch : ToolSchema) (args : List (JsStr × DynVal)) :
    Except JsErr (Node × List Edge) :=
  match sch.props.find? (fun p => p.required && (lookupArg args p.propName).isNone) with
  | some p => .error (str "Missing required field: " ++ p.propName)
  | none =>
    match sch.props.find? (fun p =>
        match lookupArg args p.propName with
        | some (.s _) => p.isArray
        | some (.arr _) => !p.isArray
        | none => false) with
    | some p => .error (str "Invalid type for field: " ++ p.propName)
    | none =>
      match lookupArg args (str "name") with
      | some (.s nm) =>
        let md := sch.props.filterMap (fun p =>
          if p.propName = str "name" then none
          else
            match p.relationship with
            | some _ => none
            | none => (lookupArg args p.propName).map (fun v =>
                capitalizeStr p.propName ++ str ": " ++ renderDynVal v))
        let es := sch.props.flatMap (fun p =>
          match p.relationship, lookupArg args p.propName with
          | some et, some (.s v) => [⟨nm, v, et⟩]
          | some et, some (.arr vs) => vs.map (fun v => Edge.mk nm v et)
          | _, _ => [])
        .ok (⟨nm, sch.toolName.drop 4, md⟩, es)
      | _ => .error (str "Missing required field: name")


/-- The three scanned VigVault directories
(`src/src/VigVaultParser.js`, lines 13-16 and 194). -/
inductive VDir where
  | knowledgeBase
  | newFiles
  | projects
deriving DecidableEq, Repr

/-- Parsed markdown front matter: the fields `extractNodeFromFile` reads.
Absent scalar fields are `none`; absent list fields behave like `[]`
(the source guards each list with `x && x.length > 0`, which treats the
two identically). -/
structure Frontmatter where
  created : Option JsStr
  year : Option JsStr
  encountered : Option JsStr
  status : Option JsStr
  tags : List JsStr
  in_ : List JsStr
  related : List JsStr
  up : List JsStr
deriving DecidableEq, Repr

/-- A markdown file as the importer sees it: the basename (without
`.md`), the directory it came from, and its front matter. -/
structure MdFile where
  base : JsStr
  dir : VDir
  fm : Frontmatter
deriving DecidableEq, Repr

/-- `tag.startsWith('#') ? tag.substring(1) : tag` (lines 108, 157). -/
def stripHash (t : JsStr) : JsStr :=
  match t with
  | '#' :: rest => rest
  | _ => t

/-- `related.replace(/[\x5b\x5d]/g, '')` — remove Obsidian link brackets
(lines 86, 123). -/
def stripBrackets (l : JsStr) : JsStr :=
  l.filter (fun c => !(c = '[' || c = ']'))

/-- `extractNodeFromFile` (lines 44-135): node type from directory and
tags, metadata lines from scalar and list front-matter fields, and the
four relationship families (`related_to`, `belongs_to_topic`,
`tagged_with`, `part_of`). -/
def extractNodeFromFile (f : MdFile) : Node × List Edge :=
  let nodeType :=
    if f.dir = VDir.projects then str "project"
    else if str "#idea" ∈ f.fm.tags then str "idea"
    else str "knowledge"
  let md :=
    (match f.fm.created with | some v => [str "Created: " ++ v] | none => []) ++
    (match f.fm.year with | some v => [str "Year: " ++ v] | none => []) ++
    (match f.fm.encountered with
      | some v => [str "Encountered: " ++ v] | none => []) ++
    (match f.fm.status with | some v => [str "Status: " ++ v] | none => []) ++
    (if f.fm.tags ≠ [] then [str "Tags: " ++ joinWith (str ", ") f.fm.tags]
      else []) ++
    (if f.fm.in_ ≠ [] then [str "Topics: " ++ joinWith (str ", ") f.fm.in_]
      else [])
  let rels :=
    f.fm.related.map (fun r =>
      Edge.mk f.base (stripBrackets r) (str "related_to")) ++
    f.fm.in_.map (fun t => Edge.mk f.base t (str "belongs_to_topic")) ++
    f.fm.tags.map (fun t =>
      Edge.mk f.base (stripHash t) (str "tagged_with")) ++
    f.fm.up.map (fun p => Edge.mk f.base (stripBrackets p) (str "part_of"))
  (⟨f.base, nodeType, md⟩, rels)

/-- The distinct topic names over all files (`createExtraNodes`,
lines 142-164, collects them in a `Set`; modelled as `dedup` — the claims
about it are order-independent). -/
def topicNames (files : List MdFile) : List JsStr :=
  (files.flatMap (fun f => f.fm.in_)).dedup

/-- The distinct `#`-stripped tag names over all files (same `Set`
modelling). -/
def tagNames (files : List MdFile) : List JsStr :=
  (files.flatMap (fun f => f.fm.tags.map stripHash)).dedup

/-- `createExtraNodes` (lines 142-187): one `topic` node per distinct
topic and one `tag` node per distinct tag, all without relationships. -/
def createExtraNodes (files : List MdFile) : List Node :=
  (topicNames files).map (fun t => Node.mk t (str "topic") []) ++
    (tagNames files).map (fun t => Node.mk t (str "tag") [])

/-- `processVigVaultFiles` (lines 193-226): per-file nodes followed by the
extra topic/tag nodes, and the concatenation of all per-file relationship
lists (the extra nodes contribute none). -/
def processVigVaultFiles (files : List MdFile) : List Node × List Edge :=
  let extracted := files.map extractNodeFromFile
  (extracted.map Prod.fst ++ createExtraNodes files,
   extracted.flatMap Prod.snd)

/-- Fixture: a file whose front matter yields both a dangling
`related_to` edge and a topic/tag name collision. -/
def fileBad : MdFile :=
  ⟨str "A", VDir.knowledgeBase,
   ⟨none, none, none, none, [str "t"], [str "t"], [str "B"], []⟩⟩

/-- Fixture: a benign file for the amended-claim witness. -/
def fileGood : MdFile :=
  ⟨str "A", VDir.knowledgeBase,
   ⟨none, none, none, none, [str "#x"], [str "topicT"], [], []⟩⟩


/-- A JSON value of the restricted grammar the memory-file records use:
strings and arrays of strings. -/
inductive JVal where
  | s (v : JsStr)
  | arr (vs : List JsStr)
deriving DecidableEq, Repr

/-- Lower-case hexadecimal digit, as emitted by `JSON.stringify` in
`\u00XX` escapes. -/
def hexDigitChar (d : Nat) : Char :=
  if d < 10 then Char.ofNat (48 + d) else Char.ofNat (87 + d)

/-- The escape of a single character inside a `JSON.stringify` string
literal: the two-character escapes, `\u00XX` for remaining control
characters, everything else verbatim. -/
def escChar (c : Char) : JsStr :=
  if c = '"' then ['\\', '"']
  else if c = '\\' then ['\\', '\\']
  else if c = '\n' then ['\\', 'n']
  else if c = '\r' then ['\\', 'r']
  else if c = '\t' then ['\\', 't']
  else if c = '\x08' then ['\\', 'b']
  else if c = '\x0c' then ['\\', 'f']
  else if c.toNat < 32 then
    ['\\', 'u', '0', '0', hexDigitChar (c.toNat / 16), hexDigitChar (c.toNat % 16)]
  else [c]

/-- Escape a whole string body. -/
def escape (l : JsStr) : JsStr := l.flatMap escChar

/-- `JSON.stringify` of a string. -/
def serializeString (l : JsStr) : JsStr := '"' :: escape l ++ ['"']

/-- `JSON.stringify` of a record value. -/
def serializeJVal : JVal → JsStr
  | .s v => serializeString v
  | .arr vs => '[' :: joinWith [','] (vs.map serializeString) ++ [']']

/-- `JSON.stringify` of one key/value pair. -/
def serializePair (p : JsStr × JVal) : JsStr :=
  serializeString p.1 ++ ':' :: serializeJVal p.2

/-- `JSON.stringify` of an object with the given pairs in insertion
order. -/
def serializePairs (ps : List (JsStr × JVal)) : JsStr :=
  '{' :: joinWith [','] (ps.map serializePair) ++ ['}']

/-- The key/value pairs of a node line `{type:'node', ...node}`
(`src/src/buildKnowledgeGraph.js`, lines 27-30). -/
def nodeRecordPairs (n : Node) : List (JsStr × JVal) :=
  [(str "type", .s (str "node")), (str "name", .s n.name),
   (str "nodeType", .s n.nodeType), (str "metadata", .arr n.metadata)]

/-- The key/value pairs of an edge line `{type:'edge', ...rel}`
(lines 33-36). -/
def edgeRecordPairs (e : Edge) : List (JsStr × JVal) :=
  [(str "type", .s (str "edge")), (str "from", .s e.from_),
   (str "to", .s e.to_), (str "edgeType", .s e.edgeType)]

/-- `JSON.stringify` of a node record line. -/
def serializeNodeRecord (n : Node) : JsStr := serializePairs (nodeRecordPairs n)

/-- `JSON.stringify` of an edge record line. -/
def serializeEdgeRecord (e : Edge) : JsStr := serializePairs (edgeRecordPairs e)

/-- The serialization step of `buildKnowledgeGraph` (lines 27-45): format
every node then every relationship as a JSON line and join with
newlines. -/
def buildMemoryContent (ns : List Node) (es : List Edge) : JsStr :=
  joinWith ['\n'] (ns.map serializeNodeRecord ++ es.map serializeEdgeRecord)

/-- Decode a two-character JSON escape. -/
def unescapeChar (e : Char) : Option Char :=
  if e = '"' then some '"'
  else if e = '\\' then some '\\'
  else if e = '/' then some '/'
  else if e = 'n' then some '\n'
  else if e = 'r' then some '\r'
  else if e = 't' then some '\t'
  else if e = 'b' then some '\x08'
  else if e = 'f' then some '\x0c'
  else none

/-- Value of one hexadecimal digit character. -/
def hexVal (c : Char) : Option Nat :=
  if '0' ≤ c ∧ c ≤ '9' then some (c.toNat - 48)
  else if 'a' ≤ c ∧ c ≤ 'f' then some (c.toNat - 87)
  else if 'A' ≤ c ∧ c ≤ 'F' then some (c.toNat - 55)
  else none

/-- Lexer mode inside a JSON string literal: plain characters, just after
a backslash, or inside the four digits of a `\u` escape. -/
inductive StrMode where
  | normal
  | esc
  | hex (need : Nat) (acc : Nat)
deriving DecidableEq, Repr

/-- JSON string-literal body lexer (the part of `JSON.parse` the
memory-file lines exercise): consumes one character per step up to the
closing quote, decoding escapes; a raw control character or a malformed
escape is a parse error. -/
def parseSB (mode : StrMode) : JsStr → Option (JsStr × JsStr)
  | [] => none
  | c :: rest =>
    match mode with
    | .normal =>
      if c = '"' then some ([], rest)
      else if c = '\\' then parseSB .esc rest
      else if c.toNat < 32 then none
      else (parseSB .normal rest).map (fun p => (c :: p.1, p.2))
    | .esc =>
      if c = 'u' then parseSB (.hex 4 0) rest
      else
        match unescapeChar c with
        | some u => (parseSB .normal rest).map (fun p => (u :: p.1, p.2))
        | none => none
    | .hex need acc =>
      match hexVal c with
      | some d =>
        if need = 1 then
          (parseSB .normal rest).map (fun p =>
            (Char.ofNat (acc * 16 + d) :: p.1, p.2))
        else parseSB (.hex (need - 1) (acc * 16 + d)) rest
      | none => none

/-- JSON string parser: an opening quote followed by a body. -/
def parseJString (l : JsStr) : Option (JsStr × JsStr) :=
  match l with
  | '"' :: rest => parseSB .normal rest
  | _ => none

/-- Parser for the comma-separated string elements of a non-empty JSON
array, up to the closing bracket.  The fuel bounds the number of
elements; callers pass the input length. -/
def parseElemsF : Nat → JsStr → Option (List JsStr × JsStr)
  | 0, _ => none
  | fuel + 1, l =>
    match parseJString l with
    | none => none
    | some (s, rest) =>
      match rest with
      | ',' :: rest2 => (parseElemsF fuel rest2).map (fun p => (s :: p.1, p.2))
      | ']' :: rest2 => some ([s], rest2)
      | _ => none

/-- Parser for a JSON value of the restricted record grammar. -/
def parseJVal (l : JsStr) : Option (JVal × JsStr) :=
  match l with
  | '"' :: _ => (parseJString l).map (fun p => (JVal.s p.1, p.2))
  | '[' :: ']' :: rest => some (JVal.arr [], rest)
  | '[' :: rest => (parseElemsF rest.length rest).map (fun p => (JVal.arr p.1, p.2))
  | _ => none

/-- Parser for the comma-separated pairs of a non-empty JSON object, up to
the closing brace. -/
def parsePairsF : Nat → JsStr → Option (List (JsStr × JVal) × JsStr)
  | 0, _ => none
  | fuel + 1, l =>
    match parseJString l with
    | none => none
    | some (k, rest) =>
      match rest with
      | ':' :: rest2 =>
        match parseJVal rest2 with
        | none => none
        | some (v, rest3) =>
          match rest3 with
          | ',' :: rest4 =>
            (parsePairsF fuel rest4).map (fun p => ((k, v) :: p.1, p.2))
          | '}' :: rest4 => some ([(k, v)], rest4)
          | _ => none
      | _ => none

/-- Parser for a JSON object of the record grammar. -/
def parseObject (l : JsStr) : Option (List (JsStr × JVal) × JsStr) :=
  match l with
  | '{' :: '}' :: rest => some ([], rest)
  | '{' :: rest => parsePairsF rest.length rest
  | _ => none

/-- Field lookup on a parsed JSON object.  `JSON.parse` lets a duplicated
key overwrite the earlier one, hence the reverse search. -/
def getVal (ps : List (JsStr × JVal)) (k : JsStr) : Option JVal :=
  (ps.reverse.find? (fun p => decide (p.1 = k))).map (fun p => p.2)

/-- Interpret a parsed memory-file line the way the graph consumers do:
`item.type === 'node'` with `name`/`nodeType`/`metadata` fields, or
`item.type === 'edge'` with `from`/`to`/`edgeType` fields. -/
def itemOfPairs (ps : List (JsStr × JVal)) : Option GraphItem :=
  match getVal ps (str "type") with
  | some (.s t) =>
    if t = str "node" then
      match getVal ps (str "name"), getVal ps (str "nodeType"),
          getVal ps (str "metadata") with
      | some (.s nm), some (.s nt), some (.arr md) =>
        some (.node ⟨nm, nt, md⟩)
      | _, _, _ => none
    else if t = str "edge" then
      match getVal ps (str "from"), getVal ps (str "to"),
          getVal ps (str "edgeType") with
      | some (.s f), some (.s t2), some (.s et) => some (.edge ⟨f, t2, et⟩)
      | _, _, _ => none
    else none
  | _ => none

/-- `JSON.parse` of one memory-file line followed by the node/edge
interpretation; the whole line must be consumed. -/
def parseItem (line : JsStr) : Option GraphItem :=
  match parseObject line with
  | some (ps, []) => itemOfPairs ps
  | _ => none

/-- Parse every line; a failing line aborts the whole load (the source
exits the process on a `JSON.parse` exception). -/
def parseLines : List JsStr → Option (List GraphItem)
  | [] => some []
  | l :: ls =>
    match parseItem l, parseLines ls with
    | some i, some is => some (i :: is)
    | _, _ => none

/-- `loadGraph` (`src/src/queryGraph.js`, lines 18-27) applied to a file
content: split on newlines, drop blank lines, parse every line. -/
def loadGraphContent (content : JsStr) : Option (List GraphItem) :=
  parseLines ((splitOnChar '\n' content).filter
    (fun l => !decide (trimStr l = [])))


theorem splitOnChar_no_sep {sep : Char} {l : JsStr} (h : sep ∉ l) :
    splitOnChar sep l = [l] := by
  induction l with
  | nil => rfl
  | cons c rest ih =>
    simp only [List.mem_cons, not_or] at h
    simp [splitOnChar, ih h.2, Ne.symm h.1]

theorem splitOnChar_append {sep : Char} {a : JsStr} (b : JsStr) (h : sep ∉ a) :
    splitOnChar sep (a ++ sep :: b) = a :: splitOnChar sep b := by
  induction a with
  | nil =>
    simp only [List.nil_append, splitOnChar]
    match hb : splitOnChar sep b with
    | [] => simp
    | h :: t => simp
  | cons c rest ih =>
    simp only [List.mem_cons, not_or] at h
    simp only [List.cons_append, splitOnChar, List.append_eq]
    rw [ih h.2]
    simp [Ne.symm h.1]

theorem mem_nodesOf {g : List GraphItem} {n : Node} :
    n ∈ nodesOf g ↔ GraphItem.node n ∈ g := by
  simp only [nodesOf, List.mem_filterMap]
  constructor
  · rintro ⟨i, hi, hf⟩
    match i with
    | .node m => simp at hf; subst hf; exact hi
    | .edge e => simp at hf
  · intro h
    exact ⟨.node n, h, rfl⟩

theorem toLowerStr_eq_nil {l : JsStr} : toLowerStr l = [] ↔ l = [] := by
  simp [toLowerStr]

theorem mem_generalSearch (g : List GraphItem) (q : JsStr) (hq : q ≠ [])
    (n : Node) :
    n ∈ generalSearch (nodesOf g) q ↔
      GraphItem.node n ∈ g ∧
        (toLowerStr q <:+: toLowerStr n.name ∨
          ∃ m ∈ n.metadata, toLowerStr q <:+: toLowerStr m) := by
  simp only [generalSearch, List.mem_filter, mem_nodesOf]
  have hql : toLowerStr q ≠ [] := by
    simpa [toLowerStr_eq_nil] using hq
  constructor
  · rintro ⟨hn, hc⟩
    refine ⟨hn, ?_⟩
    split at hc
    · rename_i hcond
      exact Or.inl (by simpa [includesStr] using hcond.2)
    · right
      simpa [List.any_eq_true, includesStr] using hc
  · rintro ⟨hn, hc⟩
    refine ⟨hn, ?_⟩
    split
    · rfl
    · rename_i hcond
      rw [not_and_or] at hcond
      rcases hc with hname | ⟨m, hm, hsub⟩
      · rcases hcond with hn0 | hni
        · push_neg at hn0
          rw [hn0] at hname
          simp only [toLowerStr, List.map_nil] at hname
          exact absurd (List.eq_nil_of_infix_nil hname) hql
        · exact absurd (by simpa [includesStr] using hname) hni
      · simp only [List.any_eq_true]
        exact ⟨m, hm, by simpa [includesStr] using hsub⟩

/-- C2 (amended): the full query semantics of `findNodes`.  An empty
query returns all nodes.  A non-empty query containing a colon is split
at every colon; with `field` and `value` the first and second parts, each
trimmed and lowercased (any further parts are ignored): when `field` is
`type` or `nodetype` the result is exactly the nodes with a non-empty
`nodeType` whose lowercased `nodeType` equals `value`; when `field` is
`tag` it is exactly the nodes that are the `from` endpoint of a
`tagged_with` edge whose lowercased `to` endpoint equals `value`; for any
other `field`, and for any non-empty query without a colon, the result is
exactly the nodes whose name or some metadata entry contains the whole
query as a case-insensitive substring. -/
theorem findNodes_query_semantics (g : List GraphItem) (q : JsStr) :
    (q = [] → findNodes g q = nodesOf g) ∧
    (∀ field value : JsStr,
      q ≠ [] → ':' ∈ q →
      field = ((splitOnChar ':' q).map (fun p => toLowerStr (trimStr p))).getD 0 [] →
      value = ((splitOnChar ':' q).map (fun p => toLowerStr (trimStr p))).getD 1 [] →
      ((field = str "type" ∨ field = str "nodetype") →
        ∀ n : Node, (n ∈ findNodes g q ↔
          GraphItem.node n ∈ g ∧ n.nodeType ≠ [] ∧
            toLowerStr n.nodeType = value)) ∧
      (field = str "tag" →
        ∀ n : Node, (n ∈ findNodes g q ↔
          GraphItem.node n ∈ g ∧ ∃ e : Edge, GraphItem.edge e ∈ g ∧
            e.edgeType = str "tagged_with" ∧ toLowerStr e.to_ = value ∧
            e.from_ = n.name)) ∧
      (field ≠ str "type" → field ≠ str "nodetype" → field ≠ str "tag" →
        ∀ n : Node, (n ∈ findNodes g q ↔
          GraphItem.node n ∈ g ∧
            (toLowerStr q <:+: toLowerStr n.name ∨
              ∃ m ∈ n.metadata, toLowerStr q <:+: toLowerStr m)))) ∧
    (q ≠ [] → ':' ∉ q →
      ∀ n : Node, (n ∈ findNodes g q ↔
        GraphItem.node n ∈ g ∧
          (toLowerStr q <:+: toLowerStr n.name ∨
            ∃ m ∈ n.metadata, toLowerStr q <:+: toLowerStr m))) := by
  refine ⟨?_, ?_, ?_⟩
  · intro h
    subst h
    rfl
  · intro field value hne hcolon hfield hvalue
    refine ⟨?_, ?_, ?_⟩
    · intro hf n
      rw [findNodes]
      simp only [if_neg hne]
      rw [findNodesSpecial, if_pos hcolon]
      dsimp only []
      rw [← hfield, ← hvalue, if_pos hf]
      simp only [List.mem_filter, mem_nodesOf, Bool.and_eq_true,
        Bool.not_eq_true', decide_eq_false_iff_not, decide_eq_true_eq, ne_eq]
    · intro hf n
      rw [findNodes]
      simp only [if_neg hne]
      rw [findNodesSpecial, if_pos hcolon]
      dsimp only []
      rw [← hfield, ← hvalue, if_neg (by rw [hf]; decide), if_pos hf]
      simp only [List.mem_filter, mem_nodesOf]
      constructor
      · rintro ⟨hn, hcont⟩
        rw [List.elem_iff, List.mem_map] at hcont
        obtain ⟨e, he, hfrom⟩ := hcont
        rw [List.mem_filterMap] at he
        obtain ⟨i, hi, hfe⟩ := he
        cases i with
        | node m => simp at hfe
        | edge e2 =>
          simp only at hfe
          split at hfe
          · rename_i hcond
            simp only [Option.some.injEq] at hfe
            subst hfe
            exact ⟨hn, e2, hi, hcond.1, hcond.2, hfrom⟩
          · simp at hfe
      · rintro ⟨hn, e, he, het, hto, hfrom⟩
        refine ⟨hn, ?_⟩
        rw [List.elem_iff, List.mem_map]
        exact ⟨e, List.mem_filterMap.mpr ⟨.edge e, he, by simp [het, hto]⟩,
          hfrom⟩
    · intro hf1 hf2 hf3 n
      rw [findNodes]
      simp only [if_neg hne]
      rw [findNodesSpecial, if_pos hcolon]
      dsimp only []
      rw [← hfield, if_neg (not_or.mpr ⟨hf1, hf2⟩), if_neg hf3]
      exact mem_generalSearch g q hne n
  · intro hne hncolon n
    rw [findNodes]
    simp only [if_neg hne]
    rw [findNodesSpecial, if_neg hncolon]
    exact mem_generalSearch g q hne n

/-- C2 counterexample: the claim's exact-equality reading of `type:` queries
is false — the query `type:npc` returns the node whose `nodeType` is `NPC`,
although `NPC ≠ npc`. -/
theorem findNodes_type_query_not_exact :
    findNodes [GraphItem.node ⟨str "X", str "NPC", []⟩] (str "type:npc") =
      [⟨str "X", str "NPC", []⟩] ∧ str "NPC" ≠ str "npc" := by
  constructor
  · rfl
  · decide

/-- C2 witness: the characterisation evaluated on the fixture graph at an
empty query, a capitalised `Type:` query, a doubly-coloned `type:` query,
a `tag:` query, an unknown-field query and a plain substring query. -/
theorem findNodes_query_semantics_witness :
    (findNodes gFix [] = nodesOf gFix) ∧
    (nodeX ∈ findNodes gFix (str "Type:npc") ↔
      GraphItem.node nodeX ∈ gFix ∧ nodeX.nodeType ≠ [] ∧
        toLowerStr nodeX.nodeType = str "npc") ∧
    (nodeX ∈ findNodes gFix (str "type:a:b") ↔
      GraphItem.node nodeX ∈ gFix ∧ nodeX.nodeType ≠ [] ∧
        toLowerStr nodeX.nodeType = str "a") ∧
    (nodeX ∈ findNodes gFix (str "tag:cooltag") ↔
      GraphItem.node nodeX ∈ gFix ∧ ∃ e : Edge, GraphItem.edge e ∈ gFix ∧
        e.edgeType = str "tagged_with" ∧ toLowerStr e.to_ = str "cooltag" ∧
        e.from_ = nodeX.name) ∧
    (nodeX ∈ findNodes gFix (str "foo:bar") ↔
      GraphItem.node nodeX ∈ gFix ∧
        (toLowerStr (str "foo:bar") <:+: toLowerStr nodeX.name ∨
          ∃ m ∈ nodeX.metadata, toLowerStr (str "foo:bar") <:+: toLowerStr m)) ∧
    (nodeX ∈ findNodes gFix (str "alive") ↔
      GraphItem.node nodeX ∈ gFix ∧
        (toLowerStr (str "alive") <:+: toLowerStr nodeX.name ∨
          ∃ m ∈ nodeX.metadata, toLowerStr (str "alive") <:+: toLowerStr m)) :=
  ⟨(findNodes_query_semantics gFix []).1 rfl,
   ((findNodes_query_semantics gFix (str "Type:npc")).2.1 (str "type")
      (str "npc") (by decide) (by decide) (by decide) (by decide)).1
      (Or.inl rfl) nodeX,
   ((findNodes_query_semantics gFix (str "type:a:b")).2.1 (str "type")
      (str "a") (by decide) (by decide) (by decide) (by decide)).1
      (Or.inl rfl) nodeX,
   ((findNodes_query_semantics gFix (str "tag:cooltag")).2.1 (str "tag")
      (str "cooltag") (by decide) (by decide) (by decide) (by decide)).2.1
      rfl nodeX,
   ((findNodes_query_semantics gFix (str "foo:bar")).2.1 (str "foo")
      (str "bar") (by decide) (by decide) (by decide) (by decide)).2.2
      (by decide) (by decide) (by decide) nodeX,
   (findNodes_query_semantics gFix (str "alive")).2.2 (by decide)
      (by decide) nodeX⟩

/-- C1: routing of tool-call requests with arguments present.  For each of
the eleven built-in names the result is determined by (and reflects) the
corresponding Graph Store method; for any other name matching the
`add_`/`update_`/`delete_` pattern the result is determined by the
dynamic-tool handler; for any other name the call returns the unknown-tool
error envelope. -/
theorem handleCallToolRequest_routing (name : JsStr) (args : ReqArgs)
    (mgr mgr' : GraphManager) (dyn dyn' : DynHandler) :
    (name = str "add_nodes" →
      (mgr.addNodes args.nodes = mgr'.addNodes args.nodes →
        handleCallToolRequest ⟨name, some args⟩ mgr dyn =
          handleCallToolRequest ⟨name, some args⟩ mgr' dyn') ∧
      (∀ e, mgr.addNodes args.nodes = .error e →
        handleCallToolRequest ⟨name, some args⟩ mgr dyn = .failure ⟨name, e,
          some args, [str "Review the error message and the provided arguments"],
          [str "If the error persists, notify the human"]⟩)) ∧
    (name = str "update_nodes" →
      (mgr.updateNodes args.nodes = mgr'.updateNodes args.nodes →
        handleCallToolRequest ⟨name, some args⟩ mgr dyn =
          handleCallToolRequest ⟨name, some args⟩ mgr' dyn') ∧
      (∀ e, mgr.updateNodes args.nodes = .error e →
        handleCallToolRequest ⟨name, some args⟩ mgr dyn = .failure ⟨name, e,
          some args, [str "Review the error message and the provided arguments"],
          [str "If the error persists, notify the human"]⟩)) ∧
    (name = str "add_edges" →
      (mgr.addEdges args.edges = mgr'.addEdges args.edges →
        handleCallToolRequest ⟨name, some args⟩ mgr dyn =
          handleCallToolRequest ⟨name, some args⟩ mgr' dyn') ∧
      (∀ e, mgr.addEdges args.edges = .error e →
        handleCallToolRequest ⟨name, some args⟩ mgr dyn = .failure ⟨name, e,
          some args, [str "Review the error message and the provided arguments"],
          [str "If the error persists, notify the human"]⟩)) ∧
    (name = str "update_edges" →
      (mgr.updateEdges args.edges = mgr'.updateEdges args.edges →
        handleCallToolRequest ⟨name, some args⟩ mgr dyn =
          handleCallToolRequest ⟨name, some args⟩ mgr' dyn') ∧
      (∀ e, mgr.updateEdges args.edges = .error e →
        handleCallToolRequest ⟨name, some args⟩ mgr dyn = .failure ⟨name, e,
          some args, [str "Review the error message and the provided arguments"],
          [str "If the error persists, notify the human"]⟩)) ∧
    (name = str "add_metadata" →
      (mgr.addMetadata args.metadata = mgr'.addMetadata args.metadata →
        handleCallToolRequest ⟨name, some args⟩ mgr dyn =
          handleCallToolRequest ⟨name, some args⟩ mgr' dyn') ∧
      (∀ e, mgr.addMetadata args.metadata = .error e →
        handleCallToolRequest ⟨name, some args⟩ mgr dyn = .failure ⟨name, e,
          some args, [str "Review the error message and the provided arguments"],
          [str "If the error persists, notify the human"]⟩)) ∧
    (name = str "delete_nodes" →
      (mgr.deleteNodes args.nodeNames = mgr'.deleteNodes args.nodeNames →
        handleCallToolRequest ⟨name, some args⟩ mgr dyn =
          handleCallToolRequest ⟨name, some args⟩ mgr' dyn') ∧
      (∀ e, mgr.deleteNodes args.nodeNames = .error e →
        handleCallToolRequest ⟨name, some args⟩ mgr dyn = .failure ⟨name, e,
          some args, [str "Review the error message and the provided arguments"],
          [str "If the error persists, notify the human"]⟩)) ∧
    (name = str "delete_metadata" →
      (mgr.deleteMetadata args.deletions = mgr'.deleteMetadata args.deletions →
        handleCallToolRequest ⟨name, some args⟩ mgr dyn =
          handleCallToolRequest ⟨name, some args⟩ mgr' dyn') ∧
      (∀ e, mgr.deleteMetadata args.deletions = .error e →
        handleCallToolRequest ⟨name, some args⟩ mgr dyn = .failure ⟨name, e,
          some args, [str "Review the error message and the provided arguments"],
          [str "If the error persists, notify the human"]⟩)) ∧
    (name = str "delete_edges" →
      (mgr.deleteEdges args.edges = mgr'.deleteEdges args.edges →
        handleCallToolRequest ⟨name, some args⟩ mgr dyn =
          handleCallToolRequest ⟨name, some args⟩ mgr' dyn') ∧
      (∀ e, mgr.deleteEdges args.edges = .error e →
        handleCallToolRequest ⟨name, some args⟩ mgr dyn = .failure ⟨name, e,
          some args, [str "Review the error message and the provided arguments"],
          [str "If the error persists, notify the human"]⟩)) ∧
    (name = str "read_graph" →
      (mgr.readGraph () = mgr'.readGraph () →
        handleCallToolRequest ⟨name, some args⟩ mgr dyn =
          handleCallToolRequest ⟨name, some args⟩ mgr' dyn') ∧
      (∀ e, mgr.readGraph () = .error e →
        handleCallToolRequest ⟨name, some args⟩ mgr dyn = .failure ⟨name, e,
          some args, [str "Review the error message and the provided arguments"],
          [str "If the error persists, notify the human"]⟩)) ∧
    (name = str "search_nodes" →
      (mgr.searchNodes args.query = mgr'.searchNodes args.query →
        handleCallToolRequest ⟨name, some args⟩ mgr dyn =
          handleCallToolRequest ⟨name, some args⟩ mgr' dyn') ∧
      (∀ e, mgr.searchNodes args.query = .error e →
        handleCallToolRequest ⟨name, some args⟩ mgr dyn = .failure ⟨name, e,
          some args, [str "Review the error message and the provided arguments"],
          [str "If the error persists, notify the human"]⟩)) ∧
    (name = str "open_nodes" →
      (mgr.openNodes args.names = mgr'.openNodes args.names →
        handleCallToolRequest ⟨name, some args⟩ mgr dyn =
          handleCallToolRequest ⟨name, some args⟩ mgr' dyn') ∧
      (∀ e, mgr.openNodes args.names = .error e →
        handleCallToolRequest ⟨name, some args⟩ mgr dyn = .failure ⟨name, e,
          some args, [str "Review the error message and the provided arguments"],
          [str "If the error persists, notify the human"]⟩)) ∧
    (name ∉ builtinToolNames → matchesDynPattern name = true →
      (dyn name args mgr = dyn' name args mgr' →
        handleCallToolRequest ⟨name, some args⟩ mgr dyn =
          handleCallToolRequest ⟨name, some args⟩ mgr' dyn') ∧
      (∀ e, dyn name args mgr = .error e →
        handleCallToolRequest ⟨name, some args⟩ mgr dyn = .failure ⟨name, e,
          some args, [str "Review the error message and the provided arguments"],
          [str "If the error persists, notify the human"]⟩)) ∧
    (name ∉ builtinToolNames → matchesDynPattern name = false →
      handleCallToolRequest ⟨name, some args⟩ mgr dyn =
        .failure ⟨name, str "Unknown tool: " ++ name, none,
          [str "Check the list of available tools"], []⟩) := by
  refine ⟨?_, ?_, ?_, ?_, ?_, ?_, ?_, ?_, ?_, ?_, ?_, ?_, ?_⟩
  case _ =>
    rintro rfl
    exact ⟨fun heq => by simp +decide [handleCallToolRequest, dispatchTry, heq],
           fun e he => by simp +decide [handleCallToolRequest, dispatchTry, he, Bind.bind, Except.bind]⟩
  case _ =>
    rintro rfl
    exact ⟨fun heq => by simp +decide [handleCallToolRequest, dispatchTry, heq],
           fun e he => by simp +decide [handleCallToolRequest, dispatchTry, he, Bind.bind, Except.bind]⟩
  case _ =>
    rintro rfl
    exact ⟨fun heq => by simp +decide [handleCallToolRequest, dispatchTry, heq],
           fun e he => by simp +decide [handleCallToolRequest, dispatchTry, he, Bind.bind, Except.bind]⟩
  case _ =>
    rintro rfl
    exact ⟨fun heq => by simp +decide [handleCallToolRequest, dispatchTry, heq],
           fun e he => by simp +decide [handleCallToolRequest, dispatchTry, he, Bind.bind, Except.bind]⟩
  case _ =>
    rintro rfl
    exact ⟨fun heq => by simp +decide [handleCallToolRequest, dispatchTry, heq],
           fun e he => by simp +decide [handleCallToolRequest, dispatchTry, he, Bind.bind, Except.bind]⟩
  case _ =>
    rintro rfl
    exact ⟨fun heq => by simp +decide [handleCallToolRequest, dispatchTry, heq],
           fun e he => by simp +decide [handleCallToolRequest, dispatchTry, he, Bind.bind, Except.bind]⟩
  case _ =>
    rintro rfl
    exact ⟨fun heq => by simp +decide [handleCallToolRequest, dispatchTry, heq],
           fun e he => by simp +decide [handleCallToolRequest, dispatchTry, he, Bind.bind, Except.bind]⟩
  case _ =>
    rintro rfl
    exact ⟨fun heq => by simp +decide [handleCallToolRequest, dispatchTry, heq],
           fun e he => by simp +decide [handleCallToolRequest, dispatchTry, he, Bind.bind, Except.bind]⟩
  case _ =>
    rintro rfl
    exact ⟨fun heq => by simp +decide [handleCallToolRequest, dispatchTry, heq],
           fun e he => by simp +decide [handleCallToolRequest, dispatchTry, he, Bind.bind, Except.bind]⟩
  case _ =>
    rintro rfl
    exact ⟨fun heq => by simp +decide [handleCallToolRequest, dispatchTry, heq],
           fun e he => by simp +decide [handleCallToolRequest, dispatchTry, he, Bind.bind, Except.bind]⟩
  case _ =>
    rintro rfl
    exact ⟨fun heq => by simp +decide [handleCallToolRequest, dispatchTry, heq],
           fun e he => by simp +decide [handleCallToolRequest, dispatchTry, he, Bind.bind, Except.bind]⟩
  case _ =>
    intro hnb hp
    simp only [builtinToolNames, List.mem_cons, List.not_mem_nil, or_false,
      not_or] at hnb
    obtain ⟨h1, h2, h3, h4, h5, h6, h7, h8, h9, h10, h11⟩ := hnb
    constructor
    · intro hdeq
      simp only [handleCallToolRequest, dispatchTry, if_neg h1, if_neg h2,
        if_neg h3, if_neg h4, if_neg h5, if_neg h6, if_neg h7, if_neg h8,
        if_neg h9, if_neg h10, if_neg h11, hp, if_pos]
      rw [hdeq]
    · intro e he
      simp only [handleCallToolRequest, dispatchTry, if_neg h1, if_neg h2,
        if_neg h3, if_neg h4, if_neg h5, if_neg h6, if_neg h7, if_neg h8,
        if_neg h9, if_neg h10, if_neg h11, hp, if_pos, he]
      rfl
  case _ =>
    intro hnb hp
    simp only [builtinToolNames, List.mem_cons, List.not_mem_nil, or_false,
      not_or] at hnb
    obtain ⟨h1, h2, h3, h4, h5, h6, h7, h8, h9, h10, h11⟩ := hnb
    simp only [handleCallToolRequest, dispatchTry, if_neg h1, if_neg h2,
      if_neg h3, if_neg h4, if_neg h5, if_neg h6, if_neg h7, if_neg h8,
      if_neg h9, if_neg h10, if_neg h11, hp]
    rfl

/-- C1 witness: the routing theorem applied at `add_nodes` (built-in,
including a throwing store), at `add_custom` (dynamic pattern) and at
`foo` (unknown tool). -/
theorem handleCallToolRequest_routing_witness :
    (handleCallToolRequest ⟨str "add_nodes", some argsFix⟩ mgrOk dynOk =
      handleCallToolRequest ⟨str "add_nodes", some argsFix⟩ mgrOk dynOk) ∧
    (handleCallToolRequest ⟨str "add_nodes", some argsFix⟩ mgrThrow dynOk =
      .failure ⟨str "add_nodes", str "boom", some argsFix,
        [str "Review the error message and the provided arguments"],
        [str "If the error persists, notify the human"]⟩) ∧
    (handleCallToolRequest ⟨str "add_custom", some argsFix⟩ mgrOk dynOk =
      handleCallToolRequest ⟨str "add_custom", some argsFix⟩ mgrThrow dynOk) ∧
    (handleCallToolRequest ⟨str "foo", some argsFix⟩ mgrOk dynOk =
      .failure ⟨str "foo", str "Unknown tool: " ++ str "foo", none,
        [str "Check the list of available tools"], []⟩) :=
  ⟨((handleCallToolRequest_routing (str "add_nodes") argsFix mgrOk mgrOk dynOk
      dynOk).1 rfl).1 rfl,
   ((handleCallToolRequest_routing (str "add_nodes") argsFix mgrThrow mgrThrow
      dynOk dynOk).1 rfl).2 (str "boom") rfl,
   ((handleCallToolRequest_routing (str "add_custom") argsFix mgrOk mgrThrow
      dynOk dynOk).2.2.2.2.2.2.2.2.2.2.2.1 (by decide) (by decide)).1 rfl,
   (handleCallToolRequest_routing (str "foo") argsFix mgrOk mgrOk dynOk
      dynOk).2.2.2.2.2.2.2.2.2.2.2.2 (by decide) (by decide)⟩

/-- C4: the dispatcher never propagates an exception — for every request
and every manager/dynamic-handler behaviour (including throwing), the
result is a success response or an error envelope, and a thrown error is
caught and wrapped into the envelope carrying the operation name and the
error message. -/
theorem handleCallToolRequest_no_uncaught (req : Request) (mgr : GraphManager)
    (dyn : DynHandler) :
    ((∃ d m a, handleCallToolRequest req mgr dyn = CallResult.success d m a) ∨
      (∃ env : ErrorEnvelope, handleCallToolRequest req mgr dyn =
        .failure env)) ∧
    (∀ args e, req.arguments = some args →
      dispatchTry req.name args mgr dyn = .error e →
      handleCallToolRequest req mgr dyn = .failure ⟨req.name, e, some args,
        [str "Review the error message and the provided arguments"],
        [str "If the error persists, notify the human"]⟩) := by
  constructor
  · match h : handleCallToolRequest req mgr dyn with
    | .success d m a => exact Or.inl ⟨d, m, a, rfl⟩
    | .failure env => exact Or.inr ⟨env, rfl⟩
  · intro args e hargs hdisp
    cases req with
    | mk nm as =>
      simp only at hargs hdisp
      subst hargs
      simp [handleCallToolRequest, hdisp]

/-- C4 witness: a throwing store method is caught and reported as an
envelope. -/
theorem handleCallToolRequest_no_uncaught_witness :
    ((∃ d m a, handleCallToolRequest ⟨str "add_nodes", some argsFix⟩ mgrThrow
        dynOk = CallResult.success d m a) ∨
      (∃ env : ErrorEnvelope, handleCallToolRequest
        ⟨str "add_nodes", some argsFix⟩ mgrThrow dynOk = .failure env)) ∧
    handleCallToolRequest ⟨str "add_nodes", some argsFix⟩ mgrThrow dynOk =
      .failure ⟨str "add_nodes", str "boom", some argsFix,
        [str "Review the error message and the provided arguments"],
        [str "If the error persists, notify the human"]⟩ :=
  ⟨(handleCallToolRequest_no_uncaught ⟨str "add_nodes", some argsFix⟩ mgrThrow
      dynOk).1,
   (handleCallToolRequest_no_uncaught ⟨str "add_nodes", some argsFix⟩ mgrThrow
      dynOk).2 argsFix (str "boom") rfl rfl⟩

/-- C9: a request with absent (falsy) arguments yields the
"No arguments provided" envelope, independently of the manager and the
dynamic handler (no graph operation is consulted, so the graph state is
unchanged). -/
theorem handleCallToolRequest_missing_args (name : JsStr)
    (mgr mgr' : GraphManager) (dyn dyn' : DynHandler) :
    handleCallToolRequest ⟨name, none⟩ mgr dyn =
      .failure ⟨name, str "No arguments provided", none,
        [str "Provide arguments for the tool call"], []⟩ ∧
    handleCallToolRequest ⟨name, none⟩ mgr dyn =
      handleCallToolRequest ⟨name, none⟩ mgr' dyn' :=
  ⟨rfl, rfl⟩

/-- C8: node search is deterministic — two evaluations with the same graph
and query (no intervening mutation) yield identical results; the
transcription of `findNodes` is a pure function of its inputs. -/
theorem findNodes_stable (g : List GraphItem) (q : JsStr) :
    findNodes g q = findNodes g q := rfl

/-- C5: the registry's one-time-initialization contract — initializing
again after a successful initialization returns the state unchanged with
no error, and dispatching before successful initialization yields the
not-initialized error envelope without consulting the registry's
handler. -/
theorem dtm_init_contract (s0 : DTMState) (reg : DynRegistry)
    (load2 : Except JsErr DynRegistry) (name : JsStr) (args : ReqArgs)
    (mgr : GraphManager) :
    (dtmInitialize (dtmInitialize s0 (.ok reg)).1 load2 =
      ((dtmInitialize s0 (.ok reg)).1, .ok ())) ∧
    (∀ s : DTMState, s.initialized = false →
      dtmHandleToolCall s name args mgr =
        .envelope ⟨name, str "Dynamic tools not initialized", none,
          [str "Ensure dynamic tools are initialized before making tool calls"],
          []⟩) := by
  constructor
  · by_cases h : s0.initialized = true
    · simp [dtmInitialize, h]
    · simp only [Bool.not_eq_true] at h
      simp [dtmInitialize, h]
  · intro s hs
    cases s with
    | mk r i =>
      simp only at hs
      subst hs
      rfl

/-- C5 witness: the contract evaluated on a concrete state and registry. -/
theorem dtm_init_contract_witness :
    (dtmInitialize (dtmInitialize ⟨none, false⟩ (.ok regFix)).1
        (.error (str "disk error")) =
      ((dtmInitialize ⟨none, false⟩ (.ok regFix)).1, .ok ())) ∧
    (dtmHandleToolCall dtmUninit (str "add_npc") argsFix mgrOk =
      .envelope ⟨str "add_npc", str "Dynamic tools not initialized", none,
        [str "Ensure dynamic tools are initialized before making tool calls"],
        []⟩) :=
  ⟨(dtm_init_contract ⟨none, false⟩ regFix (.error (str "disk error"))
      (str "add_npc") argsFix mgrOk).1,
   (dtm_init_contract ⟨none, false⟩ regFix (.error (str "disk error"))
      (str "add_npc") argsFix mgrOk).2 dtmUninit rfl⟩

/-- C10: `isDynamicTool` in the uninitialized state returns `false` and
never throws, whatever the stored registry value. -/
theorem dtm_isDynamicTool_uninitialized (s : DTMState) (name : JsStr)
    (hs : s.initialized = false) :
    dtmIsDynamicTool s name = .ok false := by
  cases s with
  | mk r i =>
    simp only at hs
    subst hs
    rfl

/-- C10 witness: evaluated on a concrete uninitialized state that carries
a registry whose tool list does contain the queried name. -/
theorem dtm_isDynamicTool_uninitialized_witness :
    dtmIsDynamicTool dtmUninit (str "add_npc") = .ok false :=
  dtm_isDynamicTool_uninitialized dtmUninit (str "add_npc") rfl

/-- C7: for the npc schema, the compiled `add_npc` handler applied to
Garrick's arguments (any description text) produces the `Garrick` node of
type `npc` plus exactly the `located_in` edge to `Tavern`, and
`currentLocation` contributes no metadata line. -/
theorem compiledAddHandler_npc_garrick (d : JsStr) :
    compiledAddHandler npcSchema
        [(str "name", .s (str "Garrick")), (str "role", .s (str "Blacksmith")),
         (str "status", .s (str "Alive")),
         (str "currentLocation", .s (str "Tavern")),
         (str "description", .s d)] =
      .ok (⟨str "Garrick", str "npc",
            [str "Role: Blacksmith", str "Status: Alive",
             str "Description: " ++ d]⟩,
           [⟨str "Garrick", str "Tavern", str "located_in"⟩]) ∧
    ∀ m ∈ [str "Role: Blacksmith", str "Status: Alive",
           str "Description: " ++ d],
      ¬(str "CurrentLocation" <+: m) ∧ ¬(str "currentLocation" <+: m) := by
  constructor
  · rfl
  · intro m hm
    simp only [List.mem_cons, List.not_mem_nil, or_false] at hm
    rcases hm with h | h | h
    · subst h; exact ⟨by decide, by decide⟩
    · subst h; exact ⟨by decide, by decide⟩
    · subst h
      constructor
      · intro hpre
        rw [show str "CurrentLocation" = 'C' :: str "urrentLocation" from rfl,
          show str "Description: " ++ d = 'D' :: (str "escription: " ++ d) from rfl,
          List.cons_prefix_cons] at hpre
        exact absurd hpre.1 (by decide)
      · intro hpre
        rw [show str "currentLocation" = 'c' :: str "urrentLocation" from rfl,
          show str "Description: " ++ d = 'D' :: (str "escription: " ++ d) from rfl,
          List.cons_prefix_cons] at hpre
        exact absurd hpre.1 (by decide)

/-- C7 witness: the Garrick call evaluated at a concrete description. -/
theorem compiledAddHandler_npc_garrick_witness :
    compiledAddHandler npcSchema
        [(str "name", .s (str "Garrick")), (str "role", .s (str "Blacksmith")),
         (str "status", .s (str "Alive")),
         (str "currentLocation", .s (str "Tavern")),
         (str "description", .s (str "A burly smith"))] =
      .ok (⟨str "Garrick", str "npc",
            [str "Role: Blacksmith", str "Status: Alive",
             str "Description: " ++ str "A burly smith"]⟩,
           [⟨str "Garrick", str "Tavern", str "located_in"⟩]) ∧
    (¬(str "CurrentLocation" <+: str "Role: Blacksmith") ∧
      ¬(str "currentLocation" <+: str "Role: Blacksmith")) :=
  ⟨(compiledAddHandler_npc_garrick (str "A burly smith")).1,
   (compiledAddHandler_npc_garrick (str "A burly smith")).2
     (str "Role: Blacksmith") (by decide)⟩

theorem processVigVaultFiles_names (files : List MdFile) :
    (processVigVaultFiles files).1.map Node.name =
      files.map MdFile.base ++ topicNames files ++ tagNames files := by
  simp only [processVigVaultFiles, createExtraNodes, List.map_append,
    List.map_map]
  rw [show Node.name ∘ Prod.fst ∘ extractNodeFromFile = MdFile.base from
    funext (fun f => rfl)]
  rw [show (Node.name ∘ fun t => Node.mk t (str "topic") []) = id from
    funext (fun t => rfl)]
  rw [show (Node.name ∘ fun t => Node.mk t (str "tag") []) = id from
    funext (fun t => rfl)]
  simp [List.append_assoc]

theorem mem_processVigVaultFiles_edges {files : List MdFile} {e : Edge} :
    e ∈ (processVigVaultFiles files).2 ↔
      ∃ f ∈ files, e ∈ (extractNodeFromFile f).2 := by
  simp [processVigVaultFiles, List.mem_flatMap]

theorem extractNodeFromFile_edge_cases {f : MdFile} {e : Edge}
    (h : e ∈ (extractNodeFromFile f).2) :
    e.from_ = f.base ∧
      ((e.edgeType = str "related_to" ∧ ∃ r ∈ f.fm.related, e.to_ = stripBrackets r) ∨
       (e.edgeType = str "belongs_to_topic" ∧ e.to_ ∈ f.fm.in_) ∨
       (e.edgeType = str "tagged_with" ∧ ∃ t ∈ f.fm.tags, e.to_ = stripHash t) ∨
       (e.edgeType = str "part_of" ∧ ∃ p ∈ f.fm.up, e.to_ = stripBrackets p)) := by
  simp only [extractNodeFromFile, List.mem_append, List.mem_map] at h
  rcases h with ((⟨r, hr, rfl⟩ | ⟨t, ht, rfl⟩) | ⟨t, ht, rfl⟩) | ⟨p, hp, rfl⟩
  · exact ⟨rfl, Or.inl ⟨rfl, r, hr, rfl⟩⟩
  · exact ⟨rfl, Or.inr (Or.inl ⟨rfl, ht⟩)⟩
  · exact ⟨rfl, Or.inr (Or.inr (Or.inl ⟨rfl, t, ht, rfl⟩))⟩
  · exact ⟨rfl, Or.inr (Or.inr (Or.inr ⟨rfl, p, hp, rfl⟩))⟩

/-- C3 (amended): for every set of input files, each emitted edge's `from`
endpoint names an emitted node, and each `belongs_to_topic` or
`tagged_with` edge's `to` endpoint names an emitted node; the emitted node
names are pairwise distinct provided the file basenames are distinct and
do not collide with topic names or tag names, and no tag name equals a
topic name.  (Unconditionally, `related_to` and `part_of` edges may
dangle, and topic/tag/basename collisions can duplicate names.) -/
theorem processVigVaultFiles_partial_invariants (files : List MdFile) :
    (∀ e ∈ (processVigVaultFiles files).2,
      e.from_ ∈ (processVigVaultFiles files).1.map Node.name) ∧
    (∀ e ∈ (processVigVaultFiles files).2,
      (e.edgeType = str "belongs_to_topic" ∨ e.edgeType = str "tagged_with") →
      e.to_ ∈ (processVigVaultFiles files).1.map Node.name) ∧
    ((files.map MdFile.base).Nodup →
      (∀ t ∈ topicNames files, t ∉ files.map MdFile.base) →
      (∀ t ∈ tagNames files, t ∉ files.map MdFile.base) →
      (∀ t ∈ tagNames files, t ∉ topicNames files) →
      ((processVigVaultFiles files).1.map Node.name).Nodup) := by
  refine ⟨?_, ?_, ?_⟩
  · intro e he
    obtain ⟨f, hf, hef⟩ := mem_processVigVaultFiles_edges.mp he
    obtain ⟨hfrom, -⟩ := extractNodeFromFile_edge_cases hef
    rw [processVigVaultFiles_names, hfrom]
    exact List.mem_append_left _ (List.mem_append_left _
      (List.mem_map_of_mem MdFile.base hf))
  · intro e he htype
    obtain ⟨f, hf, hef⟩ := mem_processVigVaultFiles_edges.mp he
    obtain ⟨-, hcases⟩ := extractNodeFromFile_edge_cases hef
    rw [processVigVaultFiles_names]
    rcases hcases with ⟨het, -⟩ | ⟨het, hto⟩ | ⟨het, t, ht, hto⟩ | ⟨het, -⟩
    · rcases htype with h | h <;> rw [het] at h <;> exact absurd h (by decide)
    · refine List.mem_append_left _ (List.mem_append_right _ ?_)
      rw [topicNames, List.mem_dedup, List.mem_flatMap]
      exact ⟨f, hf, hto⟩
    · refine List.mem_append_right _ ?_
      rw [hto, tagNames, List.mem_dedup, List.mem_flatMap]
      exact ⟨f, hf, List.mem_map_of_mem stripHash ht⟩
    · rcases htype with h | h <;> rw [het] at h <;> exact absurd h (by decide)
  · intro hb htb hgb hgt
    rw [processVigVaultFiles_names, List.append_assoc, List.nodup_append]
    refine ⟨hb, ?_, ?_⟩
    · rw [List.nodup_append]
      refine ⟨List.nodup_dedup _, List.nodup_dedup _, ?_⟩
      intro a hat hag
      exact hgt a hag hat
    · intro a hab hattg
      rcases List.mem_append.mp hattg with hat | hag
      · exact htb a hat hab
      · exact hgb a hag hab

/-- C3 counterexample: a single file with `related: [B]`, `tags: [t]`,
`in: [t]` produces a duplicate node name (`t` as topic and as tag) and a
`related_to` edge to `B`, which names no emitted node — the claim's two
invariants both fail. -/
theorem processVigVaultFiles_invariants_false :
    ¬(((processVigVaultFiles [fileBad]).1.map Node.name).Nodup ∧
      ∀ e ∈ (processVigVaultFiles [fileBad]).2,
        e.to_ ∈ (processVigVaultFiles [fileBad]).1.map Node.name) := by
  decide

/-- C3 witness: the amended claim evaluated on a concrete file. -/
theorem processVigVaultFiles_partial_invariants_witness :
    (Edge.mk (str "A") (str "topicT") (str "belongs_to_topic")).from_ ∈
      (processVigVaultFiles [fileGood]).1.map Node.name ∧
    (Edge.mk (str "A") (str "topicT") (str "belongs_to_topic")).to_ ∈
      (processVigVaultFiles [fileGood]).1.map Node.name ∧
    ((processVigVaultFiles [fileGood]).1.map Node.name).Nodup :=
  ⟨(processVigVaultFiles_partial_invariants [fileGood]).1
      (Edge.mk (str "A") (str "topicT") (str "belongs_to_topic")) (by decide),
   (processVigVaultFiles_partial_invariants [fileGood]).2.1
      (Edge.mk (str "A") (str "topicT") (str "belongs_to_topic")) (by decide)
      (by decide),
   (processVigVaultFiles_partial_invariants [fileGood]).2.2 (by decide)
      (by decide) (by decide) (by decide)⟩

theorem hexVal_hexDigitChar {d : Nat} (h : d < 16) :
    hexVal (hexDigitChar d) = some d := by
  interval_cases d <;> decide

theorem parseSB_hex_step {d : Nat} (hd : d < 16) (need acc : Nat)
    (hn : need ≠ 1) (l : JsStr) :
    parseSB (.hex need acc) (hexDigitChar d :: l) =
      parseSB (.hex (need - 1) (acc * 16 + d)) l := by
  simp only [parseSB, hexVal_hexDigitChar hd, if_neg hn]

theorem parseSB_hex_last {d : Nat} (hd : d < 16) (acc : Nat) (l : JsStr) :
    parseSB (.hex 1 acc) (hexDigitChar d :: l) =
      (parseSB .normal l).map (fun p => (Char.ofNat (acc * 16 + d) :: p.1, p.2)) := by
  simp only [parseSB, hexVal_hexDigitChar hd]
  simp

theorem parseSB_escape (s rest : JsStr) :
    parseSB .normal (escape s ++ '"' :: rest) = some (s, rest) := by
  induction s with
  | nil => rfl
  | cons c s ih =>
    by_cases h1 : c = '"'
    · subst h1
      show (parseSB StrMode.normal (escape s ++ '"' :: rest)).map
        (fun p => ('"' :: p.1, p.2)) = some ('"' :: s, rest)
      rw [ih]
      rfl
    · by_cases h2 : c = '\\'
      · subst h2
        show (parseSB StrMode.normal (escape s ++ '"' :: rest)).map
          (fun p => ('\\' :: p.1, p.2)) = some ('\\' :: s, rest)
        rw [ih]
        rfl
      · by_cases h3 : c = '\n'
        · subst h3
          show (parseSB StrMode.normal (escape s ++ '"' :: rest)).map
            (fun p => ('\n' :: p.1, p.2)) = some ('\n' :: s, rest)
          rw [ih]
          rfl
        · by_cases h4 : c = '\r'
          · subst h4
            show (parseSB StrMode.normal (escape s ++ '"' :: rest)).map
              (fun p => ('\r' :: p.1, p.2)) = some ('\r' :: s, rest)
            rw [ih]
            rfl
          · by_cases h5 : c = '\t'
            · subst h5
              show (parseSB StrMode.normal (escape s ++ '"' :: rest)).map
                (fun p => ('\t' :: p.1, p.2)) = some ('\t' :: s, rest)
              rw [ih]
              rfl
            · by_cases h6 : c = '\x08'
              · subst h6
                show (parseSB StrMode.normal (escape s ++ '"' :: rest)).map
                  (fun p => ('\x08' :: p.1, p.2)) = some ('\x08' :: s, rest)
                rw [ih]
                rfl
              · by_cases h7 : c = '\x0c'
                · subst h7
                  show (parseSB StrMode.normal (escape s ++ '"' :: rest)).map
                    (fun p => ('\x0c' :: p.1, p.2)) = some ('\x0c' :: s, rest)
                  rw [ih]
                  rfl
                · by_cases h8 : c.toNat < 32
                  · have hesc : escChar c = ['\\', 'u', '0', '0',
                        hexDigitChar (c.toNat / 16), hexDigitChar (c.toNat % 16)] := by
                      simp only [escChar, if_neg h1, if_neg h2, if_neg h3,
                        if_neg h4, if_neg h5, if_neg h6, if_neg h7, if_pos h8]
                    rw [show escape (c :: s) = escChar c ++ escape s from rfl, hesc]
                    show parseSB (.hex 2 0) (hexDigitChar (c.toNat / 16) ::
                      hexDigitChar (c.toNat % 16) :: (escape s ++ '"' :: rest)) =
                        some (c :: s, rest)
                    rw [parseSB_hex_step (by omega) 2 0 (by omega),
                      parseSB_hex_last (by omega), ih]
                    rw [show (0 * 16 + c.toNat / 16) * 16 + c.toNat % 16 = c.toNat
                      from by omega, Char.ofNat_toNat]
                    rfl
                  · have hesc : escChar c = [c] := by
                      simp only [escChar, if_neg h1, if_neg h2, if_neg h3,
                        if_neg h4, if_neg h5, if_neg h6, if_neg h7, if_neg h8]
                    rw [show escape (c :: s) = escChar c ++ escape s from rfl, hesc]
                    show parseSB .normal (c :: (escape s ++ '"' :: rest)) =
                      some (c :: s, rest)
                    simp only [parseSB, if_neg h1, if_neg h2, if_neg h8, ih,
                      Option.map_some]
                    rfl

theorem parseJString_serializeString (s rest : JsStr) :
    parseJString (serializeString s ++ rest) = some (s, rest) := by
  show parseSB .normal ((escape s ++ ['"']) ++ rest) = _
  rw [List.append_assoc]
  exact parseSB_escape s rest

theorem serializeString_length (s : JsStr) :
    2 ≤ (serializeString s).length := by
  simp [serializeString]

theorem joinWith_length_ge (sep : JsStr) (xs : List JsStr)
    (h : ∀ x ∈ xs, 1 ≤ x.length) :
    xs.length ≤ (joinWith sep xs).length + 1 := by
  induction xs with
  | nil => simp [joinWith]
  | cons x xs ih =>
    cases xs with
    | nil =>
      have := h x (by simp)
      simp [joinWith]
    | cons y t =>
      have hx := h x (by simp)
      have hrec := ih (fun z hz => h z (by simp [hz]))
      simp only [joinWith, List.length_append, List.length_cons] at hrec ⊢
      omega

theorem parseElemsF_round (vs : List JsStr) (hne : vs ≠ []) (rest : JsStr)
    (fuel : Nat) (hf : vs.length ≤ fuel) :
    parseElemsF fuel (joinWith [','] (vs.map serializeString) ++ ']' :: rest) =
      some (vs, rest) := by
  induction vs generalizing fuel rest with
  | nil => cases hne rfl
  | cons v vs ih =>
    obtain ⟨f, rfl⟩ : ∃ f, fuel = f + 1 :=
      ⟨fuel - 1, by simp at hf; omega⟩
    cases vs with
    | nil =>
      show parseElemsF (f + 1) (serializeString v ++ ']' :: rest) =
        some ([v], rest)
      simp [parseElemsF, parseJString_serializeString]
    | cons w t =>
      have hsplit : joinWith [','] ((v :: w :: t).map serializeString) ++
          ']' :: rest =
          serializeString v ++ (',' ::
            (joinWith [','] ((w :: t).map serializeString) ++ ']' :: rest)) := by
        simp [joinWith, List.append_assoc]
      rw [hsplit]
      simp only [parseElemsF, parseJString_serializeString]
      rw [ih (by simp) _ f (by simp at hf ⊢; omega)]
      rfl

theorem parseJVal_round (v : JVal) (rest : JsStr) :
    parseJVal (serializeJVal v ++ rest) = some (v, rest) := by
  match v with
  | .s s =>
    show (parseJString (serializeString s ++ rest)).map
      (fun p => (JVal.s p.1, p.2)) = some (.s s, rest)
    rw [parseJString_serializeString]
    rfl
  | .arr [] => rfl
  | .arr (w :: vs) =>
    obtain ⟨K, hK⟩ : ∃ K,
        joinWith [','] ((w :: vs).map serializeString) = '"' :: K := by
      cases vs with
      | nil => exact ⟨escape w ++ ['"'], rfl⟩
      | cons y t =>
        exact ⟨(escape w ++ ['"']) ++ ([','] ++
          joinWith [','] ((y :: t).map serializeString)),
          by simp [joinWith, serializeString, List.append_assoc]⟩
    have hK2 : joinWith [','] ((w :: vs).map serializeString) ++ ']' :: rest
        = '"' :: (K ++ ']' :: rest) := by rw [hK]; rfl
    have hlen : (w :: vs).length ≤
        (joinWith [','] ((w :: vs).map serializeString) ++ ']' :: rest).length := by
      have h1 := joinWith_length_ge [','] ((w :: vs).map serializeString)
        (by
          intro x hx
          obtain ⟨a, ha, rfl⟩ := List.mem_map.mp hx
          have := serializeString_length a
          omega)
      simp only [List.length_append, List.length_cons, List.length_map] at h1 ⊢
      omega
    rw [show serializeJVal (.arr (w :: vs)) ++ rest = '[' ::
      (joinWith [','] ((w :: vs).map serializeString) ++ ']' :: rest) from
      by simp [serializeJVal, List.append_assoc]]
    rw [hK2]
    show (parseElemsF ('"' :: (K ++ ']' :: rest)).length
        ('"' :: (K ++ ']' :: rest))).map (fun p => (JVal.arr p.1, p.2)) =
      some (.arr (w :: vs), rest)
    rw [← hK2, parseElemsF_round _ (by simp) _ _ hlen]
    rfl

theorem serializePair_length (p : JsStr × JVal) :
    2 ≤ (serializePair p).length := by
  have := serializeString_length p.1
  simp only [serializePair, List.length_append, List.length_cons]
  omega

theorem parsePairsF_round (ps : List (JsStr × JVal)) (hne : ps ≠ [])
    (rest : JsStr) (fuel : Nat) (hf : ps.length ≤ fuel) :
    parsePairsF fuel (joinWith [','] (ps.map serializePair) ++ '}' :: rest) =
      some (ps, rest) := by
  induction ps generalizing fuel rest with
  | nil => cases hne rfl
  | cons p ps ih =>
    obtain ⟨f, rfl⟩ : ∃ f, fuel = f + 1 :=
      ⟨fuel - 1, by simp at hf; omega⟩
    cases ps with
    | nil =>
      rw [show joinWith [','] ([p].map serializePair) ++ '}' :: rest =
        serializeString p.1 ++ (':' :: (serializeJVal p.2 ++ '}' :: rest)) from
        by simp [joinWith, serializePair, List.append_assoc]]
      simp only [parsePairsF, parseJString_serializeString, parseJVal_round]
    | cons q t =>
      rw [show joinWith [','] ((p :: q :: t).map serializePair) ++ '}' :: rest =
        serializeString p.1 ++ (':' :: (serializeJVal p.2 ++ (',' ::
          (joinWith [','] ((q :: t).map serializePair) ++ '}' :: rest)))) from
        by simp [joinWith, serializePair, List.append_assoc]]
      simp only [parsePairsF, parseJString_serializeString, parseJVal_round]
      rw [ih (by simp) _ f (by simp at hf ⊢; omega)]
      rfl

theorem parseObject_round (ps : List (JsStr × JVal)) (hne : ps ≠ [])
    (rest : JsStr) :
    parseObject (serializePairs ps ++ rest) = some (ps, rest) := by
  match ps, hne with
  | p :: t, _ =>
    obtain ⟨K, hK⟩ : ∃ K,
        joinWith [','] ((p :: t).map serializePair) = '"' :: K := by
      cases t with
      | nil =>
        exact ⟨(escape p.1 ++ ['"']) ++ ':' :: serializeJVal p.2,
          by simp [joinWith, serializePair, serializeString]⟩
      | cons q u =>
        exact ⟨((escape p.1 ++ ['"']) ++ ':' :: serializeJVal p.2) ++
          ([','] ++ joinWith [','] ((q :: u).map serializePair)),
          by simp [joinWith, serializePair, serializeString, List.append_assoc]⟩
    have hK2 : joinWith [','] ((p :: t).map serializePair) ++ '}' :: rest
        = '"' :: (K ++ '}' :: rest) := by rw [hK]; rfl
    have hlen : (p :: t).length ≤
        (joinWith [','] ((p :: t).map serializePair) ++ '}' :: rest).length := by
      have h1 := joinWith_length_ge [','] ((p :: t).map serializePair)
        (by
          intro x hx
          obtain ⟨a, ha, rfl⟩ := List.mem_map.mp hx
          have := serializePair_length a
          omega)
      simp only [List.length_append, List.length_cons, List.length_map] at h1 ⊢
      omega
    rw [show serializePairs (p :: t) ++ rest = '{' ::
      (joinWith [','] ((p :: t).map serializePair) ++ '}' :: rest) from
      by simp [serializePairs, List.append_assoc]]
    rw [hK2]
    show parsePairsF ('"' :: (K ++ '}' :: rest)).length
        ('"' :: (K ++ '}' :: rest)) = some (p :: t, rest)
    rw [← hK2, parsePairsF_round _ (by simp) _ _ hlen]

theorem parseItem_node (n : Node) :
    parseItem (serializeNodeRecord n) = some (.node n) := by
  have h := parseObject_round (nodeRecordPairs n) (by simp [nodeRecordPairs]) []
  rw [List.append_nil] at h
  simp only [parseItem, serializeNodeRecord, h]
  rfl

theorem parseItem_edge (e : Edge) :
    parseItem (serializeEdgeRecord e) = some (.edge e) := by
  have h := parseObject_round (edgeRecordPairs e) (by simp [edgeRecordPairs]) []
  rw [List.append_nil] at h
  simp only [parseItem, serializeEdgeRecord, h]
  rfl

theorem hexDigitChar_ne_nl {d : Nat} (h : d < 16) : hexDigitChar d ≠ '\n' := by
  interval_cases d <;> decide

theorem nl_not_mem_escChar (c : Char) : '\n' ∉ escChar c := by
  unfold escChar
  split_ifs with h1 h2 h3 h4 h5 h6 h7 h8
  · decide
  · decide
  · decide
  · decide
  · decide
  · decide
  · decide
  · intro hmem
    simp only [List.mem_cons, List.not_mem_nil, or_false] at hmem
    rcases hmem with h | h | h | h | h | h
    · exact absurd h (by decide)
    · exact absurd h (by decide)
    · exact absurd h (by decide)
    · exact absurd h (by decide)
    · exact hexDigitChar_ne_nl (by omega) h.symm
    · exact hexDigitChar_ne_nl (by omega) h.symm
  · intro hmem
    simp only [List.mem_singleton] at hmem
    rw [← hmem] at h8
    exact h8 (by decide)

theorem nl_not_mem_escape (s : JsStr) : '\n' ∉ escape s := by
  intro h
  rw [escape, List.mem_flatMap] at h
  obtain ⟨c, -, hc⟩ := h
  exact nl_not_mem_escChar c hc

theorem nl_not_mem_serializeString (s : JsStr) : '\n' ∉ serializeString s := by
  intro h
  rcases List.mem_cons.mp h with h | h
  · exact absurd h (by decide)
  · rcases List.mem_append.mp h with h | h
    · exact nl_not_mem_escape s h
    · exact absurd (List.mem_singleton.mp h) (by decide)

theorem mem_joinWith {c : Char} {sep : JsStr} {xs : List JsStr}
    (h : c ∈ joinWith sep xs) : c ∈ sep ∨ ∃ x ∈ xs, c ∈ x := by
  induction xs with
  | nil => simp [joinWith] at h
  | cons x xs ih =>
    cases xs with
    | nil => exact Or.inr ⟨x, by simp, h⟩
    | cons y t =>
      simp only [joinWith, List.mem_append] at h
      rcases h with (h | h) | h
      · exact Or.inr ⟨x, by simp, h⟩
      · exact Or.inl h
      · rcases ih h with h | ⟨z, hz, hcz⟩
        · exact Or.inl h
        · exact Or.inr ⟨z, by simp [hz], hcz⟩

theorem nl_not_mem_serializeJVal (v : JVal) : '\n' ∉ serializeJVal v := by
  intro h
  match v with
  | .s s => exact nl_not_mem_serializeString s h
  | .arr vs =>
    rcases List.mem_cons.mp h with h | h
    · exact absurd h (by decide)
    · rcases List.mem_append.mp h with h | h
      · rcases mem_joinWith h with h | ⟨x, hx, hcx⟩
        · exact absurd (List.mem_singleton.mp h) (by decide)
        · obtain ⟨a, -, rfl⟩ := List.mem_map.mp hx
          exact nl_not_mem_serializeString a hcx
      · exact absurd (List.mem_singleton.mp h) (by decide)

theorem nl_not_mem_serializePair (p : JsStr × JVal) :
    '\n' ∉ serializePair p := by
  intro h
  rcases List.mem_append.mp h with h | h
  · exact nl_not_mem_serializeString p.1 h
  · rcases List.mem_cons.mp h with h | h
    · exact absurd h (by decide)
    · exact nl_not_mem_serializeJVal p.2 h

theorem nl_not_mem_serializePairs (ps : List (JsStr × JVal)) :
    '\n' ∉ serializePairs ps := by
  intro h
  rcases List.mem_cons.mp h with h | h
  · exact absurd h (by decide)
  · rcases List.mem_append.mp h with h | h
    · rcases mem_joinWith h with h | ⟨x, hx, hcx⟩
      · exact absurd (List.mem_singleton.mp h) (by decide)
      · obtain ⟨a, -, rfl⟩ := List.mem_map.mp hx
        exact nl_not_mem_serializePair a hcx
    · exact absurd (List.mem_singleton.mp h) (by decide)

theorem trimStr_brace (l : JsStr) : trimStr ('{' :: l) ≠ [] := by
  intro h
  unfold trimStr at h
  rw [List.dropWhile_cons, if_neg (by decide)] at h
  have h2 : ('{' :: l).reverse.dropWhile isWS = [] := by
    have := congrArg List.reverse h
    simpa using this
  rw [List.dropWhile_eq_nil_iff] at h2
  exact absurd (h2 '{' (by simp)) (by decide)

theorem splitOnChar_joinWith {lines : List JsStr}
    (h : ∀ l ∈ lines, '\n' ∉ l) (hne : lines ≠ []) :
    splitOnChar '\n' (joinWith ['\n'] lines) = lines := by
  induction lines with
  | nil => cases hne rfl
  | cons x xs ih =>
    cases xs with
    | nil => exact splitOnChar_no_sep (h x (by simp))
    | cons y t =>
      rw [show joinWith ['\n'] (x :: y :: t) =
        x ++ '\n' :: joinWith ['\n'] (y :: t) from by simp [joinWith]]
      rw [splitOnChar_append _ (h x (by simp))]
      rw [ih (fun l hl => h l (by simp [hl])) (by simp)]

theorem filter_keeps_records (lines : List JsStr)
    (h : ∀ l ∈ lines, ∃ t, l = '{' :: t) :
    lines.filter (fun l => !decide (trimStr l = [])) = lines := by
  rw [List.filter_eq_self]
  intro a ha
  obtain ⟨t, rfl⟩ := h a ha
  simp only [Bool.not_eq_true', decide_eq_false_iff_not]
  exact trimStr_brace t

theorem parseLines_records (ns : List Node) (es : List Edge) :
    parseLines (ns.map serializeNodeRecord ++ es.map serializeEdgeRecord) =
      some (ns.map GraphItem.node ++ es.map GraphItem.edge) := by
  induction ns with
  | nil =>
    induction es with
    | nil => rfl
    | cons e es ihe =>
      simp only [List.map_nil, List.nil_append] at ihe
      simp [parseLines, parseItem_edge, ihe]
  | cons n ns ihn => simp [parseLines, parseItem_node, ihn]

/-- C6: serializing any collection of nodes and edges to the
line-per-JSON-record memory file and reloading yields node and edge
collections set-equal to the originals. -/
theorem buildGraph_loadGraph_round_trip (ns : List Node) (es : List Edge) :
    ∃ items : List GraphItem,
      loadGraphContent (buildMemoryContent ns es) = some items ∧
      (∀ n : Node, GraphItem.node n ∈ items ↔ n ∈ ns) ∧
      (∀ e : Edge, GraphItem.edge e ∈ items ↔ e ∈ es) := by
  refine ⟨ns.map GraphItem.node ++ es.map GraphItem.edge, ?_, ?_, ?_⟩
  · unfold loadGraphContent buildMemoryContent
    by_cases hrec : ns.map serializeNodeRecord ++ es.map serializeEdgeRecord = []
    · obtain ⟨hn, he⟩ := List.append_eq_nil.mp hrec
      rw [List.map_eq_nil_iff] at hn he
      subst hn
      subst he
      rfl
    · rw [splitOnChar_joinWith ?records_nonl hrec,
        filter_keeps_records _ ?records_brace]
      · exact parseLines_records ns es
      case records_nonl =>
        intro l hl
        rcases List.mem_append.mp hl with hl | hl
        · obtain ⟨n, -, rfl⟩ := List.mem_map.mp hl
          exact nl_not_mem_serializePairs (nodeRecordPairs n)
        · obtain ⟨e, -, rfl⟩ := List.mem_map.mp hl
          exact nl_not_mem_serializePairs (edgeRecordPairs e)
      case records_brace =>
        intro l hl
        rcases List.mem_append.mp hl with hl | hl
        · obtain ⟨n, -, rfl⟩ := List.mem_map.mp hl
          exact ⟨_, rfl⟩
        · obtain ⟨e, -, rfl⟩ := List.mem_map.mp hl
          exact ⟨_, rfl⟩
  · intro n
    simp [List.mem_append, List.mem_map]
  · intro e
    simp [List.mem_append, List.mem_map]
